import Mathlib

/-!
Shallow embedding of the TSP heuristic scripts of the repository
(`src/tp1/two_opt_heuristic.py` and `src/tp1/nearest_insertion_tsp.py`),
with theorems settling the specification's claims about them.

Conventions of the embedding:
* a cost-matrix entry is `Option Nat`: `none` is Python's `None` (the
  "no edge" sentinel), `some v` a non-negative integer cost (the spec's
  data model stipulates non-negative costs);
* Python code that can raise an exception is embedded with `Option` /
  `Except`, where `none` / `.error` stands for the raised exception;
* Python 2 peculiarities are preserved: `None` compares below every
  number, `if not value` is true for both `None` and `0`, list slices
  clamp and accept negative indices, `sorted` is a stable sort;
* the `while improvement < max` loop of `two_opt_heuristic` is embedded
  with an explicit fuel argument that is provably larger than the number
  of passes the loop can execute (each pass either strictly decreases
  the working tour's natural-number cost or increments `improvement`),
  so the fueled function computes exactly what the Python loop computes.
-/

abbrev CostMatrix := List (List (Option Nat))

/-- `cost_matrix[a][b]`; out-of-range indexing collapses to `none`. -/
def edgeCost (m : CostMatrix) (a b : Nat) : Option Nat :=
  (m.getD a []).getD b none

/-- The pair `(path[-2], path[-1])` read by the line after the loop of both
cost functions; `none` when the path has fewer than two nodes, in which case
that line raises `NameError` (the loop variable `i` was never bound). -/
def lastPair : List Nat → Option (Nat × Nat)
  | [a, b] => some (a, b)
  | _ :: rest => lastPair rest
  | [] => none

/-- The loop of `cost_calc` in `src/tp1/nearest_insertion_tsp.py`: sum of the
consecutive-edge costs; `none` if some edge is `None` (Python would raise
`TypeError` on `cost += None`). A cost of `0` is summed normally. -/
def sumEdges (m : CostMatrix) : List Nat → Option Nat
  | a :: b :: rest =>
    match edgeCost m a b with
    | some v => (sumEdges m (b :: rest)).map (fun s => v + s)
    | none => none
  | _ => some 0

/-- The loop of `_cost_calc` in `src/tp1/two_opt_heuristic.py`: as `sumEdges`,
but `if not value: return None` makes it return `none` for a `0`-cost edge as
well as for a missing one. -/
def sumEdgesStrict (m : CostMatrix) : List Nat → Option Nat
  | a :: b :: rest =>
    match edgeCost m a b with
    | some v =>
      if v = 0 then none
      else (sumEdgesStrict m (b :: rest)).map (fun s => v + s)
    | none => none
  | _ => some 0

/-- `cost_calc` of `src/tp1/nearest_insertion_tsp.py`: the loop sum plus,
once more, the value `cost_matrix[path[i]][path[i+1]]` at the final loop
index — i.e. the LAST consecutive edge again, not the closing edge. -/
def cost_calc (m : CostMatrix) (path : List Nat) : Option Nat :=
  match lastPair path, sumEdges m path with
  | some (a, b), some s =>
    match edgeCost m a b with
    | some v => some (s + v)
    | none => none
  | _, _ => none

/-- `_cost_calc` of `src/tp1/two_opt_heuristic.py`: the strict loop sum plus,
once more, the last consecutive edge (same post-loop line as `cost_calc`). -/
def costCalcTwoOpt (m : CostMatrix) (path : List Nat) : Option Nat :=
  match lastPair path, sumEdgesStrict m path with
  | some (a, b), some s =>
    match edgeCost m a b with
    | some v => some (s + v)
    | none => none
  | _, _ => none

/-- Effective index of a Python slice endpoint `i` on a list of length `n`:
negative indices count from the end, everything clamps into `[0, n]`. -/
def pyIdx (n : Nat) (i : Int) : Nat :=
  if i < 0 then ((n : Int) + i).toNat else min i.toNat n

/-- Python slice `l[a:b]`. -/
def pySlice (l : List Nat) (a b : Int) : List Nat :=
  (l.take (pyIdx l.length b)).drop (pyIdx l.length a)

/-- `two_opt_swap` of `src/tp1/two_opt_heuristic.py`:
`route[:i-1] + reversed(route[i-1:k]) + route[k:]`. -/
def two_opt_swap (route : List Nat) (i k : Nat) : List Nat :=
  pySlice route 0 ((i : Int) - 1) ++
    (pySlice route ((i : Int) - 1) (k : Int)).reverse ++
    pySlice route (k : Int) (route.length : Int)

/-- The position pairs scanned by one pass of `two_opt_heuristic`:
`enumerate(range(1, n))`, i.e. `[(0,1), (1,2), ..., (n-2, n-1)]`. -/
def scanPairs (n : Nat) : List (Nat × Nat) :=
  (List.range (n - 1)).map (fun j => (j, j + 1))

/-- The inner `for i, k in enumerate(range(1,len(route)))` loop of
`two_opt_heuristic`, over an explicit pair list.  State: working route,
current best distance, and whether some candidate was accepted.  The
Python 2 test `new_distance != None and new_distance < best_distance`
is false whenever either value is `None` (`None` sorts below numbers). -/
def scanLoop (m : CostMatrix) :
    List (Nat × Nat) → List Nat → Option Nat → Bool →
    List Nat × Option Nat × Bool
  | [], route, best, acc => (route, best, acc)
  | (i, k) :: rest, route, best, acc =>
    match costCalcTwoOpt m (two_opt_swap route i k), best with
    | some d, some b =>
      if d < b then scanLoop m rest (two_opt_swap route i k) (some d) true
      else scanLoop m rest route best acc
    | _, _ => scanLoop m rest route best acc

/-- An upper bound on how much longer the `while improvement < max` loop can
run from a given state: each accepted move strictly decreases the working
route's cost, each stale pass increments `improvement`. -/
def heurMeasure (m : CostMatrix) (mx : Nat) (route : List Nat) (imp : Nat) :
    Nat :=
  ((costCalcTwoOpt m route).getD 0 + 1) * mx + (mx - imp)

/-- The `while improvement < max` loop of `two_opt_heuristic`, with fuel.
Each iteration recomputes `best_distance = _cost_calc(cost_matrix, route)`,
runs one full scan, and then either resets `improvement` to `0` and adds the
trailing `improvement += 1` (an accepting pass ends with `improvement = 1`)
or just increments `improvement`. -/
def heurLoopF (m : CostMatrix) (mx : Nat) : Nat → List Nat → Nat → List Nat
  | 0, route, _ => route
  | fuel + 1, route, imp =>
    if imp < mx then
      heurLoopF m mx fuel
        (scanLoop m (scanPairs route.length) route
          (costCalcTwoOpt m route) false).1
        (if (scanLoop m (scanPairs route.length) route
          (costCalcTwoOpt m route) false).2.2 then 1 else imp + 1)
    else route

/-- `two_opt_heuristic` of `src/tp1/two_opt_heuristic.py`.  The fuel
`heurMeasure m mx route 0 + 1` strictly exceeds the number of passes the
Python loop can execute (see `heurMeasure`), so the embedding runs the loop
to its genuine exit. -/
def two_opt_heuristic (m : CostMatrix) (route : List Nat) (mx : Nat) :
    List Nat :=
  heurLoopF m mx (heurMeasure m mx route 0 + 1) route 0

/-- Python 2 ordering on cost values: `None` is below every number. -/
def optLe (a b : Option Nat) : Bool :=
  match a, b with
  | none, _ => true
  | some _, none => false
  | some x, some y => x ≤ y

/-- Stable insertion used by `sortBy`: `x` goes in front of the first `y`
with `le x y`. -/
def insertSorted (le : Nat → Nat → Bool) (x : Nat) : List Nat → List Nat
  | [] => [x]
  | y :: ys => if le x y then x :: y :: ys else y :: insertSorted le x ys

/-- A stable sort; extensionally equal to Python's stable `sorted` for any
total comparator, hence a faithful rendering of
`sorted(range(len(neighboors)), key=lambda k: neighboors[k])`. -/
def sortBy (le : Nat → Nat → Bool) : List Nat → List Nat
  | [] => []
  | x :: xs => insertSorted le x (sortBy le xs)

/-- `nearest` of `src/tp1/nearest_insertion_tsp.py`: indices of the current
node's row sorted by cost (Python 2: `None` keys first, ties by index via
stability), then the first index with a defined cost that is unvisited. -/
def nearest (m : CostMatrix) (node : Nat) (unvisited : List Nat) :
    Option Nat :=
  let nb := m.getD node []
  let idxs := sortBy (fun i j => optLe (nb.getD i none) (nb.getD j none))
    (List.range nb.length)
  idxs.find? (fun idx => (nb.getD idx none).isSome && unvisited.contains idx)

/-- A raised Python exception (the constructions at hand only ever raise
`ValueError` from `list.remove`, which carries a fixed message and no data). -/
inductive PyExc where
  | valueError : String → PyExc
deriving DecidableEq, Repr

/-- The `while unvisited != []` loop of `iterative_nearest_insertion`.
When `nearest` returns `None`, Python appends `None` to the tour and then
`unvisited.remove(None)` raises `ValueError`; the whole call dies with that
generic exception.  The fuel equals `unvisited.length` at every real call
site (each iteration removes one member), so the `0`-fuel fallback is never
taken on a reachable state. -/
def niLoopF (m : CostMatrix) :
    Nat → Nat → List Nat → List Nat → Except PyExc (List Nat)
  | 0, _, uv, tour =>
    if uv = [] then .ok tour
    else .error (.valueError "list.remove is given an absent element")
  | fuel + 1, last, uv, tour =>
    if uv = [] then .ok tour
    else
      match nearest m last uv with
      | none => .error (.valueError "list.remove is given an absent element")
      | some nx =>
        if nx ∈ uv then niLoopF m fuel nx (uv.erase nx) (tour ++ [nx])
        else .error (.valueError "list.remove is given an absent element")

/-- `iterative_nearest_insertion` of `src/tp1/nearest_insertion_tsp.py`.
`unvisited = range(len(cost_matrix)); unvisited.remove(node)` raises
`ValueError` when the start node is out of range. -/
def iterative_nearest_insertion (m : CostMatrix) (node : Nat) :
    Except PyExc (List Nat) :=
  if node < m.length then
    niLoopF m ((List.range m.length).erase node).length node
      ((List.range m.length).erase node) [node]
  else .error (.valueError "list.remove is given an absent element")

/-- The pair enumeration the spec describes for one 2-opt pass: every pair
`(i, k)` with `1 ≤ i < k ≤ n − 1`, in row-major order (`i` ascending, then
`k` ascending).  Written from the spec's words, for comparison with
`scanPairs` (the enumeration the code actually performs). -/
def specPairs (n : Nat) : List (Nat × Nat) :=
  ((List.range n).map (fun i =>
    (List.range n).filterMap (fun k =>
      if 1 ≤ i ∧ i < k ∧ k ≤ n - 1 then some (i, k) else none))).flatten

/-- First improving candidate of a scan, in scan order — helper for the
spec-described restart-on-improvement variant of the improver. -/
def findImprove (m : CostMatrix) :
    List (Nat × Nat) → List Nat → Nat → Option (List Nat)
  | [], _, _ => none
  | (i, k) :: rest, route, b =>
    match costCalcTwoOpt m (two_opt_swap route i k) with
    | some d => if d < b then some (two_opt_swap route i k) else
        findImprove m rest route b
    | none => findImprove m rest route b

/-- Modelled from the spec: the improvement loop as §4.2 describes it —
on finding a strictly better candidate, accept it, reset the stale-round
counter to zero and restart the scan from the top of the pair enumeration;
increment the counter only after a full scan with no improving move.
(Fueled like `heurLoopF`; the fuel bound is never hit on the runs below.) -/
def restartLoopF (m : CostMatrix) (mx : Nat) : Nat → List Nat → Nat → List Nat
  | 0, route, _ => route
  | fuel + 1, route, imp =>
    if imp < mx then
      match costCalcTwoOpt m route with
      | none => restartLoopF m mx fuel route (imp + 1)
      | some b =>
        match findImprove m (scanPairs route.length) route b with
        | some nr => restartLoopF m mx fuel nr 0
        | none => restartLoopF m mx fuel route (imp + 1)
    else route

/-- Modelled from the spec: the whole improver under the spec's
restart-on-improvement policy, scanning the same pair list and using the
same cost and swap functions as the code. -/
def twoOptSpecRestart (m : CostMatrix) (route : List Nat) (mx : Nat) :
    List Nat :=
  restartLoopF m mx (heurMeasure m mx route 0 + 1) route 0

/-- A route on which a full scan of `two_opt_heuristic` accepts nothing:
the pass returns the route, its cost, and `false`. -/
def stalePoint (m : CostMatrix) (T : List Nat) : Prop :=
  scanLoop m (scanPairs T.length) T (costCalcTwoOpt m T) false =
    (T, costCalcTwoOpt m T, false)

/-- A symmetric 4-node cost matrix exercising the improver's acceptance
behaviour (edge costs: 0-1 ↦ 2, 1-2 ↦ 3, 2-3 ↦ 2, 0-2 ↦ 3, 1-3 ↦ 1,
0-3 ↦ 1). -/
def cexM : CostMatrix :=
  [[none, some 2, some 3, some 1],
   [some 2, none, some 3, some 1],
   [some 3, some 3, none, some 2],
   [some 1, some 1, some 2, none]]

/-- A 3-node matrix whose only edge joins nodes 0 and 1: construction from 0
visits 1 and then has no defined edge to the remaining node 2. -/
def niM1 : CostMatrix :=
  [[none, some 1, none], [some 1, none, none], [none, none, none]]

/-- A 2-node matrix with no edges at all: construction from 0 is stuck
immediately. -/
def niM2 : CostMatrix := [[none, none], [none, none]]

/-- A 3-node matrix for the duplicated-last-edge evaluation: consecutive
edges 0→1 and 1→2 cost 1 and 2, the closing edge 2→0 costs 10. -/
def cexC2M : CostMatrix :=
  [[none, some 1, some 10], [some 1, none, some 2], [some 10, some 2, none]]

/-- A 2-node matrix whose single edge has the legitimate cost 0. -/
def zeroEdgeM : CostMatrix := [[none, some 0], [some 0, none]]


/-- Scan step, acceptance case: a defined candidate cost strictly below the
current (defined) best replaces the working route and best, sets the accept
flag, and the scan continues with the remaining pairs. -/
theorem scanLoop_cons_accept (m : CostMatrix) (i k : Nat)
    (rest : List (Nat × Nat)) (route : List Nat) (b d : Nat) (acc : Bool)
    (h1 : costCalcTwoOpt m (two_opt_swap route i k) = some d) (h3 : d < b) :
    scanLoop m ((i, k) :: rest) route (some b) acc =
      scanLoop m rest (two_opt_swap route i k) (some d) true := by
  simp [scanLoop, h1, h3]

/-- Scan step, skip case: an undefined candidate cost. -/
theorem scanLoop_cons_skip_none (m : CostMatrix) (i k : Nat)
    (rest : List (Nat × Nat)) (route : List Nat) (best : Option Nat)
    (acc : Bool) (h1 : costCalcTwoOpt m (two_opt_swap route i k) = none) :
    scanLoop m ((i, k) :: rest) route best acc =
      scanLoop m rest route best acc := by
  cases best <;> simp [scanLoop, h1]

/-- Scan step, skip case: a defined candidate cost not below the best. -/
theorem scanLoop_cons_skip_ge (m : CostMatrix) (i k : Nat)
    (rest : List (Nat × Nat)) (route : List Nat) (b d : Nat) (acc : Bool)
    (h1 : costCalcTwoOpt m (two_opt_swap route i k) = some d)
    (h3 : ¬ d < b) :
    scanLoop m ((i, k) :: rest) route (some b) acc =
      scanLoop m rest route (some b) acc := by
  simp [scanLoop, h1, h3]

/-- Scan step, skip case: an undefined best (Python 2's `d < None` is
false). -/
theorem scanLoop_cons_skip_bestnone (m : CostMatrix) (i k : Nat)
    (rest : List (Nat × Nat)) (route : List Nat) (d : Nat) (acc : Bool)
    (h1 : costCalcTwoOpt m (two_opt_swap route i k) = some d) :
    scanLoop m ((i, k) :: rest) route none acc =
      scanLoop m rest route none acc := by
  simp [scanLoop, h1]

/-- What one scan can do: either it accepts nothing and returns its state
unchanged, or it accepts at least once, ending on a route whose cost equals
the returned best distance, strictly below the best it was started with. -/
theorem scanLoop_inv (m : CostMatrix) :
    ∀ (ps : List (Nat × Nat)) (route : List Nat) (best : Option Nat)
      (acc : Bool) (r' : List Nat) (b' : Option Nat) (a' : Bool),
      scanLoop m ps route best acc = (r', b', a') →
      (r' = route ∧ b' = best ∧ a' = acc) ∨
        (∃ d b0, b' = some d ∧ best = some b0 ∧ d < b0 ∧ a' = true ∧
          costCalcTwoOpt m r' = some d) := by
  intro ps
  induction ps with
  | nil =>
    intro route best acc r' b' a' h
    simp only [scanLoop, Prod.mk.injEq] at h
    exact Or.inl ⟨h.1.symm, h.2.1.symm, h.2.2.symm⟩
  | cons hd tl ih =>
    obtain ⟨i, k⟩ := hd
    intro route best acc r' b' a' h
    rcases hnd : costCalcTwoOpt m (two_opt_swap route i k) with _ | d
    · rw [scanLoop_cons_skip_none m i k tl route best acc hnd] at h
      exact ih _ _ _ _ _ _ h
    · cases best with
      | none =>
        rw [scanLoop_cons_skip_bestnone m i k tl route d acc hnd] at h
        exact ih _ _ _ _ _ _ h
      | some b =>
        by_cases hdb : d < b
        · rw [scanLoop_cons_accept m i k tl route b d acc hnd hdb] at h
          rcases ih _ _ _ _ _ _ h with ⟨h1, h2, h3⟩ |
              ⟨d', b0', hb', hbest', hlt', ha', hc'⟩
          · exact Or.inr ⟨d, b, h2, rfl, hdb, h3, by rw [h1]; exact hnd⟩
          · have hb0d : b0' = d := by
              exact (Option.some.inj hbest').symm
            exact Or.inr ⟨d', b, hb', rfl,
              lt_trans (hb0d ▸ hlt') hdb, ha', hc'⟩
        · rw [scanLoop_cons_skip_ge m i k tl route b d acc hnd hdb] at h
          exact ih _ _ _ _ _ _ h

/-- Once `improvement < max` fails, the loop returns the working route. -/
theorem heurLoopF_exit (m : CostMatrix) (mx fuel : Nat) (route : List Nat)
    (imp : Nat) (h : ¬ imp < mx) : heurLoopF m mx fuel route imp = route := by
  cases fuel <;> simp [heurLoopF, h]

/-- Cost never increases across the whole improvement loop, for any fuel:
the working route changes only by accepting a strictly cheaper candidate. -/
theorem heurLoopF_cost_mono (m : CostMatrix) (mx : Nat) :
    ∀ (fuel : Nat) (route : List Nat) (imp c : Nat),
      costCalcTwoOpt m route = some c →
      ∃ c', costCalcTwoOpt m (heurLoopF m mx fuel route imp) = some c' ∧
        c' ≤ c := by
  intro fuel
  induction fuel with
  | zero =>
    intro route imp c hc
    exact ⟨c, by simpa [heurLoopF] using hc, le_refl c⟩
  | succ fuel ih =>
    intro route imp c hc
    by_cases himp : imp < mx
    · simp only [heurLoopF, if_pos himp]
      rcases hres : scanLoop m (scanPairs route.length) route
          (costCalcTwoOpt m route) false with ⟨r', b', a'⟩
      dsimp only
      rcases scanLoop_inv m _ _ _ _ _ _ _ hres with ⟨h1, h2, h3⟩ |
          ⟨d, b0, hb', hbest, hlt, ha, hc'⟩
      · subst h1
        exact ih r' _ c hc
      · have hb0c : b0 = c := by
          rw [hbest] at hc; exact Option.some.inj hc
        obtain ⟨c', hce, hcle⟩ := ih r' _ d hc'
        exact ⟨c', hce, le_trans hcle (Nat.le_of_lt (hb0c ▸ hlt))⟩
    · simp only [heurLoopF, if_neg himp]
      exact ⟨c, hc, le_refl c⟩

/-- A stale point is a fixed point of the whole loop, for any fuel and any
starting value of the counter. -/
theorem heurLoopF_stale_fix (m : CostMatrix) (mx : Nat) (T : List Nat)
    (hS : stalePoint m T) :
    ∀ (fuel imp : Nat), heurLoopF m mx fuel T imp = T := by
  intro fuel
  induction fuel with
  | zero => intro imp; simp [heurLoopF]
  | succ fuel ih =>
    intro imp
    by_cases h : imp < mx
    · simp only [heurLoopF, if_pos h]
      rw [stalePoint] at hS
      rw [hS]; dsimp only
      exact ih _
    · simp [heurLoopF, h]

/-- With `max ≥ 2` and enough fuel, the loop can only exit after a full
stale pass, so its output is a stale point of the scan. -/
theorem heurLoopF_output_stale (m : CostMatrix) (mx : Nat) (hmx : 2 ≤ mx) :
    ∀ (fuel : Nat) (route : List Nat) (imp : Nat),
      heurMeasure m mx route imp < fuel → imp < mx →
      stalePoint m (heurLoopF m mx fuel route imp) := by
  intro fuel
  induction fuel with
  | zero =>
    intro route imp hmu himp
    exact absurd hmu (Nat.not_lt_zero _)
  | succ fuel ih =>
    intro route imp hmu himp
    simp only [heurLoopF, if_pos himp]
    rcases hres : scanLoop m (scanPairs route.length) route
        (costCalcTwoOpt m route) false with ⟨r', b', a'⟩
    dsimp only
    rcases scanLoop_inv m _ _ _ _ _ _ _ hres with ⟨h1, h2, h3⟩ |
        ⟨d, b0, hb', hbest, hlt, ha, hc'⟩
    · subst h1; subst h2; subst h3
      have hred : (if (false : Bool) = true then (1 : Nat) else imp + 1) =
          imp + 1 := rfl
      rw [hred]
      by_cases h2m : imp + 1 < mx
      · refine ih r' (imp + 1) ?_ h2m
        simp only [heurMeasure] at hmu ⊢
        omega
      · rw [heurLoopF_exit m mx fuel r' (imp + 1) h2m]
        exact hres
    · subst ha
      have hred : (if (true : Bool) = true then (1 : Nat) else imp + 1) =
          1 := rfl
      rw [hred]
      refine ih r' 1 ?_ (by omega)
      simp only [heurMeasure, hc', hbest, Option.getD_some] at hmu ⊢
      have hmul : (d + 2) * mx ≤ (b0 + 1) * mx :=
        Nat.mul_le_mul_right mx (by omega)
      have hsplit : (d + 2) * mx = (d + 1) * mx + mx := by ring
      omega

/-- Loop invariant of `iterative_nearest_insertion`: on success the final
tour consists of the accumulated tour followed by, in some order, exactly
the unvisited nodes; the head of the accumulated tour is preserved. -/
theorem niLoopF_ok_perm (m : CostMatrix) :
    ∀ (fuel last : Nat) (uv tour t : List Nat), tour ≠ [] →
      niLoopF m fuel last uv tour = .ok t →
      t.Perm (tour ++ uv) ∧ t.head? = tour.head? := by
  intro fuel
  induction fuel with
  | zero =>
    intro last uv tour t htour h
    by_cases huv : uv = []
    · subst huv
      simp [niLoopF] at h
      subst h
      exact ⟨by simp, rfl⟩
    · simp [niLoopF, huv] at h
  | succ fuel ih =>
    intro last uv tour t htour h
    by_cases huv : uv = []
    · subst huv
      simp [niLoopF] at h
      subst h
      exact ⟨by simp, rfl⟩
    · simp only [niLoopF, if_neg huv] at h
      rcases hnx : nearest m last uv with _ | nx
      · rw [hnx] at h
        simp at h
      · rw [hnx] at h
        simp only at h
        by_cases hmem : nx ∈ uv
        · rw [if_pos hmem] at h
          obtain ⟨hperm, hhead⟩ :=
            ih nx (uv.erase nx) (tour ++ [nx]) t (by simp) h
          constructor
          · refine hperm.trans ?_
            rw [List.append_assoc]
            refine List.Perm.append_left tour ?_
            exact (List.perm_cons_erase hmem).symm
          · rw [hhead]
            obtain ⟨x, xs, rfl⟩ := List.exists_cons_of_ne_nil htour
            simp
        · rw [if_neg hmem] at h
          simp at h

/-- If at some step of the construction the current node has no defined
edge to any remaining unvisited node, `nearest` returns `None` and the
loop dies with the generic `ValueError` from `unvisited.remove(None)`. -/
theorem niLoopF_stuck (m : CostMatrix) (fuel last : Nat)
    (uv tour : List Nat) (hne : uv ≠ [])
    (hun : ∀ v ∈ uv, edgeCost m last v = none) :
    niLoopF m fuel last uv tour =
      .error (.valueError "list.remove is given an absent element") := by
  have hnone : nearest m last uv = none := by
    simp only [nearest]
    rw [List.find?_eq_none]
    intro idx hidx
    by_cases hmemuv : idx ∈ uv
    · have h0 := hun idx hmemuv
      simp only [edgeCost] at h0
      simp only [h0, Option.isSome_none, Bool.false_and]
      exact Bool.false_ne_true
    · simp [hmemuv]
  cases fuel with
  | zero => simp [niLoopF, hne]
  | succ fuel => simp [niLoopF, hne, hnone]

/-- Length of the degenerate swap the scan performs at its first pair
`(i, k) = (0, 1)`: `route[:-1] + [] + route[1:]`, of length `2n − 2`. -/
theorem two_opt_swap_zero_one_length (route : List Nat)
    (h : 3 ≤ route.length) :
    (two_opt_swap route 0 1).length = 2 * route.length - 2 := by
  simp only [two_opt_swap, pySlice, pyIdx, List.length_append,
    List.length_reverse, List.length_drop, List.length_take]
  have hA : ¬ ((route.length : Int) < 0) := by omega
  norm_num [hA]
  omega

/-- The strict sum of `_cost_calc` dies on any consecutive pair whose
defined cost is `0` (the `if not value` test). -/
theorem sumEdgesStrict_zero (m : CostMatrix) :
    ∀ (path : List Nat) (a b : Nat), (a, b) ∈ path.zip path.tail →
      edgeCost m a b = some 0 → sumEdgesStrict m path = none := by
  intro path
  induction path with
  | nil => intro a b hmem; simp at hmem
  | cons x rest ih =>
    intro a b hmem hz
    cases rest with
    | nil => simp at hmem
    | cons y rest2 =>
      simp only [List.tail_cons, List.zip_cons_cons, List.mem_cons] at hmem
      rcases hmem with heq | hmem2
      · obtain ⟨h1, h2⟩ := Prod.mk.inj heq
        subst h1; subst h2
        simp [sumEdgesStrict, hz]
      · have hrec := ih a b hmem2 hz
        rcases he : edgeCost m x y with _ | v <;>
          simp [sumEdgesStrict, he, hrec]

/-- C1: the claim says one pass of `two_opt_heuristic` enumerates every
pair `(i, k)` with `1 ≤ i < k ≤ n − 1` in row-major order.  Evaluating the
enumeration the code performs at `n = 4`: it is `[(0,1), (1,2), (2,3)]` —
only `k = i + 1`, with the supposedly-anchored `i = 0` included — while the
spec's enumeration is `[(1,2), (1,3), (2,3)]`; the pair `(1,3)` is never
scanned. -/
theorem c1_scan_pairs_eval :
    scanPairs 4 = [(0, 1), (1, 2), (2, 3)] ∧
      specPairs 4 = [(1, 2), (1, 3), (2, 3)] ∧
      scanPairs 4 ≠ specPairs 4 := by
  decide

/-- C2: the claim says the tour cost is the consecutive-edge sum plus the
closing edge from the last node back to the first.  On the tour `[0, 1, 2]`
over `cexC2M` both cost functions return `1 + 2 + 2 = 5`: the post-loop line
re-reads the LAST consecutive edge `1→2` instead of the closing edge `2→0`
(cost 10), so the claimed closed-tour value `13` is never produced and the
closing edge is never even examined. -/
theorem c2_cost_calc_eval :
    costCalcTwoOpt cexC2M [0, 1, 2] = some 5 ∧
      cost_calc cexC2M [0, 1, 2] = some 5 ∧
      costCalcTwoOpt cexC2M [0, 1, 2] ≠ some 13 := by
  decide

/-- C3: for every cost matrix, every initial tour whose total cost is
defined, and every positive `max`, the total cost of the tour returned by
`two_opt_heuristic` is at most the total cost of the input tour. -/
theorem two_opt_cost_monotone (m : CostMatrix) (route : List Nat)
    (mx c : Nat) (hmx : 0 < mx) (hc : costCalcTwoOpt m route = some c) :
    ∃ c', costCalcTwoOpt m (two_opt_heuristic m route mx) = some c' ∧
      c' ≤ c :=
  heurLoopF_cost_mono m mx (heurMeasure m mx route 0 + 1) route 0 c hc

/-- Witness for C3: `cexM`, tour `[0,1,2,3]` of cost 9, `max = 1`. -/
theorem two_opt_cost_monotone_witness :
    0 < 1 ∧ costCalcTwoOpt cexM [0, 1, 2, 3] = some 9 ∧
      ∃ c', costCalcTwoOpt cexM (two_opt_heuristic cexM [0, 1, 2, 3] 1) =
        some c' ∧ c' ≤ 9 :=
  ⟨Nat.one_pos, by decide,
    two_opt_cost_monotone cexM [0, 1, 2, 3] 1 9 Nat.one_pos (by decide)⟩

/-- C4 counterexample: on `cexM` with tour `[0,1,2,3]` and `max = 1` the
code returns `[0,2,1,3]`, while the spec's restart-on-improvement policy
(same pair list, same swap and cost functions) returns `[2,0,1,3]`: after
accepting an improvement the code does not restart the scan from the top of
the enumeration. -/
theorem c4_no_restart_cex :
    two_opt_heuristic cexM [0, 1, 2, 3] 1 = [0, 2, 1, 3] ∧
      twoOptSpecRestart cexM [0, 1, 2, 3] 1 = [2, 0, 1, 3] ∧
      two_opt_heuristic cexM [0, 1, 2, 3] 1 ≠
        twoOptSpecRestart cexM [0, 1, 2, 3] 1 := by
  decide

/-- C4 amended: when a scanned candidate has defined cost strictly below
the current (defined) best, the pass accepts it immediately — the working
route and the best cost are replaced and the accept flag is set (the outer
loop then makes the stale counter restart from this pass) — but the scan
CONTINUES with the remaining pairs of the same pass instead of restarting
from the top of the enumeration. -/
theorem two_opt_accept_continues (m : CostMatrix) (i k : Nat)
    (rest : List (Nat × Nat)) (route : List Nat) (b d : Nat) (acc : Bool)
    (h1 : costCalcTwoOpt m (two_opt_swap route i k) = some d)
    (h2 : d < b) :
    scanLoop m ((i, k) :: rest) route (some b) acc =
      scanLoop m rest (two_opt_swap route i k) (some d) true :=
  scanLoop_cons_accept m i k rest route b d acc h1 h2

/-- Witness for the amended C4: the accepting step of the first pass on
`cexM` at the pair `(2, 3)`. -/
theorem two_opt_accept_continues_witness :
    costCalcTwoOpt cexM (two_opt_swap [0, 1, 2, 3] 2 3) = some 8 ∧ 8 < 9 ∧
      scanLoop cexM [(2, 3)] [0, 1, 2, 3] (some 9) false =
        scanLoop cexM [] (two_opt_swap [0, 1, 2, 3] 2 3) (some 8) true :=
  ⟨by decide, by decide,
    two_opt_accept_continues cexM 2 3 [] [0, 1, 2, 3] 9 8 false (by decide)
      (by decide)⟩

/-- C5: for every n ≥ 1, every n×n cost matrix and every start node in
`[0, n)`, when `iterative_nearest_insertion` succeeds its result is a
permutation of exactly the n node indices, beginning at the start node. -/
theorem iterative_nearest_insertion_perm (m : CostMatrix) (node : Nat)
    (t : List Nat) (hn : 0 < m.length)
    (hsq : ∀ row ∈ m, row.length = m.length) (hnode : node < m.length)
    (hok : iterative_nearest_insertion m node = .ok t) :
    t.Perm (List.range m.length) ∧ t.head? = some node := by
  rw [iterative_nearest_insertion, if_pos hnode] at hok
  obtain ⟨hperm, hhead⟩ :=
    niLoopF_ok_perm m ((List.range m.length).erase node).length node
      ((List.range m.length).erase node) [node] t (by simp) hok
  constructor
  · refine hperm.trans ?_
    have hmem : node ∈ List.range m.length := List.mem_range.mpr hnode
    have h1 : ([node] : List Nat) ++ (List.range m.length).erase node =
        node :: (List.range m.length).erase node := by simp
    rw [h1]
    exact (List.perm_cons_erase hmem).symm
  · simpa using hhead

/-- Witness for C5: the 4×4 matrix `cexM` from start 0 builds
`[0, 3, 1, 2]`. -/
theorem iterative_nearest_insertion_perm_witness :
    0 < cexM.length ∧ (∀ row ∈ cexM, row.length = cexM.length) ∧
      iterative_nearest_insertion cexM 0 = .ok [0, 3, 1, 2] ∧
      (([0, 3, 1, 2] : List Nat).Perm (List.range cexM.length) ∧
        ([0, 3, 1, 2] : List Nat).head? = some 0) :=
  ⟨by decide, by decide, rfl,
    iterative_nearest_insertion_perm cexM 0 [0, 3, 1, 2] (by decide)
      (by decide) (by decide) rfl⟩

/-- C6 counterexample: two stuck constructions whose partial tours differ
(`[0, 1]` on `niM1`, `[0]` on `niM2`) fail with the very same error value —
the generic `ValueError` of `unvisited.remove(None)` — so the failure does
not carry (nor even determine) the partial tour, and is not a distinct
`NoFeasibleExtension` error. -/
theorem c6_error_carries_no_tour_cex :
    iterative_nearest_insertion niM1 0 = iterative_nearest_insertion niM2 0 ∧
      iterative_nearest_insertion niM2 0 =
        .error (.valueError "list.remove is given an absent element") :=
  ⟨rfl, rfl⟩

/-- C6 amended: if at some step of the construction the current node has no
defined (non-sentinel) edge to any remaining unvisited node, the
construction fails — it raises the generic `ValueError` coming from
`unvisited.remove(None)` after `None` was appended to the tour, an error
carrying no partial-tour diagnostic — and in particular never returns a
partial tour as a success. -/
theorem nearest_insertion_stuck_error (m : CostMatrix) (fuel last : Nat)
    (uv tour : List Nat) (hne : uv ≠ [])
    (hun : ∀ v ∈ uv, edgeCost m last v = none) :
    niLoopF m fuel last uv tour =
      .error (.valueError "list.remove is given an absent element") :=
  niLoopF_stuck m fuel last uv tour hne hun

/-- Witness for the amended C6: the stuck step of `niM1` (current node 1,
remaining `[2]`, partial tour `[0, 1]`). -/
theorem nearest_insertion_stuck_error_witness :
    (([2] : List Nat) ≠ [] ∧
        ∀ v ∈ ([2] : List Nat), edgeCost niM1 1 v = none) ∧
      niLoopF niM1 1 1 [2] [0, 1] =
        .error (.valueError "list.remove is given an absent element") :=
  ⟨⟨by decide, by decide⟩,
    nearest_insertion_stuck_error niM1 1 1 [2] [0, 1] (by decide)
      (by decide)⟩

/-- C7 counterexample: with the positive bound `max = 1`, running
`two_opt_heuristic` on `cexM` from `[0,1,2,3]` returns a tour of cost 8,
and re-running it on that output returns a tour of cost 7: the output is
not a fixed point (with `max = 1` the loop exits immediately after an
improving pass, without a verifying pass). -/
theorem c7_rerun_improves_cex :
    costCalcTwoOpt cexM (two_opt_heuristic cexM [0, 1, 2, 3] 1) = some 8 ∧
      costCalcTwoOpt cexM
        (two_opt_heuristic cexM (two_opt_heuristic cexM [0, 1, 2, 3] 1) 1) =
        some 7 ∧
      costCalcTwoOpt cexM
          (two_opt_heuristic cexM
            (two_opt_heuristic cexM [0, 1, 2, 3] 1) 1) ≠
        costCalcTwoOpt cexM (two_opt_heuristic cexM [0, 1, 2, 3] 1) := by
  decide

/-- C7 amended: for every cost matrix, every tour and every
`maxStaleRounds ≥ 2`, re-running `two_opt_heuristic` on its own output
(same matrix, same bound) yields a tour of identical total cost — indeed
the identical tour, since with `max ≥ 2` the loop can only exit after a
full stale pass, making its output a fixed point of the scan. -/
theorem two_opt_rerun_fixed (m : CostMatrix) (r : List Nat) (mx : Nat)
    (hmx : 2 ≤ mx) :
    costCalcTwoOpt m (two_opt_heuristic m (two_opt_heuristic m r mx) mx) =
      costCalcTwoOpt m (two_opt_heuristic m r mx) := by
  have hS : stalePoint m (two_opt_heuristic m r mx) :=
    heurLoopF_output_stale m mx hmx (heurMeasure m mx r 0 + 1) r 0
      (Nat.lt_succ_self _) (by omega)
  have hfix : two_opt_heuristic m (two_opt_heuristic m r mx) mx =
      two_opt_heuristic m r mx :=
    heurLoopF_stale_fix m mx (two_opt_heuristic m r mx) hS
      (heurMeasure m mx (two_opt_heuristic m r mx) 0 + 1) 0
  rw [hfix]

/-- Witness for the amended C7 at `cexM`, `[0,1,2,3]`, `max = 2`. -/
theorem two_opt_rerun_fixed_witness :
    2 ≤ 2 ∧
      costCalcTwoOpt cexM
        (two_opt_heuristic cexM (two_opt_heuristic cexM [0, 1, 2, 3] 2) 2) =
        costCalcTwoOpt cexM (two_opt_heuristic cexM [0, 1, 2, 3] 2) :=
  ⟨by decide, two_opt_rerun_fixed cexM [0, 1, 2, 3] 2 (by decide)⟩

/-- C8: for any 1×1 cost matrix the tour builder does succeed with the
single-node tour `[0]`, but the tour-cost function returns no value at all
on it — the post-loop line references the loop variable of a loop that
never ran (`NameError`), embedded as `none` — instead of the claimed cost
`0` (or self-loop cost). -/
theorem single_node_builder_ok_cost_none (x : Option Nat) :
    iterative_nearest_insertion [[x]] 0 = .ok [0] ∧
      cost_calc [[x]] [0] = none :=
  ⟨rfl, rfl⟩

/-- C9: the first pair `(0, 1)` of every scan with `n ≥ 3` makes
`two_opt_swap` return `route[:-1] + route[1:]`, a list of length `2n − 2`
that is not a permutation of the route, so the improver evaluates candidate
routes violating the Tour invariant. -/
theorem two_opt_swap_scan_not_perm (route : List Nat)
    (h : 3 ≤ route.length) :
    (0, 1) ∈ scanPairs route.length ∧
      (two_opt_swap route 0 1).length = 2 * route.length - 2 ∧
      ¬ (two_opt_swap route 0 1).Perm route := by
  refine ⟨?_, two_opt_swap_zero_one_length route h, ?_⟩
  · simp only [scanPairs, List.mem_map]
    exact ⟨0, List.mem_range.mpr (by omega), rfl⟩
  · intro hp
    have hlen := hp.length_eq
    rw [two_opt_swap_zero_one_length route h] at hlen
    omega

/-- Witness for C9 at the route `[0, 1, 2]`. -/
theorem two_opt_swap_scan_not_perm_witness :
    3 ≤ ([0, 1, 2] : List Nat).length ∧
      ((0, 1) ∈ scanPairs ([0, 1, 2] : List Nat).length ∧
        (two_opt_swap [0, 1, 2] 0 1).length =
          2 * ([0, 1, 2] : List Nat).length - 2 ∧
        ¬ (two_opt_swap [0, 1, 2] 0 1).Perm [0, 1, 2]) :=
  ⟨by decide, two_opt_swap_scan_not_perm [0, 1, 2] (by decide)⟩

/-- C10: any path traversing an edge whose defined cost is `0` is reported
infeasible by `_cost_calc` (`if not value` treats a present `0` exactly
like a missing edge). -/
theorem zero_cost_edge_infeasible (m : CostMatrix) (path : List Nat)
    (h : ∃ p ∈ path.zip path.tail, edgeCost m p.1 p.2 = some 0) :
    costCalcTwoOpt m path = none := by
  obtain ⟨⟨a, b⟩, hmem, hz⟩ := h
  have hsum := sumEdgesStrict_zero m path a b hmem hz
  rcases hlp : lastPair path with _ | ab
  · simp [costCalcTwoOpt, hlp]
  · obtain ⟨a', b'⟩ := ab
    simp [costCalcTwoOpt, hlp, hsum]

/-- Witness for C10 on the 0-cost edge of `zeroEdgeM`. -/
theorem zero_cost_edge_infeasible_witness :
    (∃ p ∈ ([0, 1] : List Nat).zip ([0, 1] : List Nat).tail,
        edgeCost zeroEdgeM p.1 p.2 = some 0) ∧
      costCalcTwoOpt zeroEdgeM [0, 1] = none :=
  ⟨by decide, zero_cost_edge_infeasible zeroEdgeM [0, 1] (by decide)⟩
